import Mathlib

/-!
Shallow embedding of the `llm` pipeline component of `spacy-llm`
(`spacy_llm/pipeline/llm.py`): the `make_llm` factory, the single-document
path `LLMWrapper.__call__`, and the streaming path `LLMWrapper.pipe`,
together with the external collaborator contracts (task, prompt executor,
cache) and the `Doc._.llm_io` extension mechanism used by `save_io`.

Documents are opaque units identified by a fingerprint `fp` and carrying
annotations `ann`.  Collaborators are modelled as explicit function records
returning `Except Err _`: a Python exception raised by a collaborator call
is an `Except.error` at the call site.  Invocations of the task and the
executor are recorded in an event log so that call patterns (which
subsequence of a batch was submitted) are observable propositions.
-/

namespace SpacyLLM

/-- Opaque document: a content fingerprint (the cache key) plus the
structured annotations set by a task. -/
structure Doc where
  fp : Nat
  ann : List Nat
deriving DecidableEq

abbrev Prompt := String

abbrev Response := String

/-- Python exceptions that can surface inside the component. -/
inductive Err where
  | taskError (msg : String)
  | backendError (msg : String)
  | cacheError (msg : String)
  | assertionError
  | runtimeStopIteration
deriving DecidableEq

/-- Observable collaborator invocations made by the component. -/
inductive Event where
  | genPrompts (docs : List Doc)
  | execute (prompts : List Prompt)
  | parseResponses (docs : List Doc) (responses : List Response)
deriving DecidableEq

/-- The inner dictionary stored per component name in `Doc._.llm_io`:
keys `"prompt"` and `"response"`. -/
structure IoRecord where
  prompt : Option String
  response : Option String
deriving DecidableEq

def IoRecord.setPrompt (q : IoRecord) (p : String) : IoRecord :=
  { q with prompt := some p }

def IoRecord.setResponse (q : IoRecord) (r : String) : IoRecord :=
  { q with response := some r }

/-- Association-list lookup (first binding wins, like a dict keyed search). -/
def assocFind {κ β : Type} [DecidableEq κ] (k : κ) : List (κ × β) → Option β
  | [] => none
  | (k', v) :: rest => if k = k' then some v else assocFind k rest

/-- Association-list update/insert for a key. -/
def assocSet {κ β : Type} [DecidableEq κ] (k : κ) (v : β) : List (κ × β) → List (κ × β)
  | [] => [(k, v)]
  | (k', v') :: rest => if k = k' then (k, v) :: rest else (k', v') :: assocSet k v rest

/-- The `defaultdict(dict)` value of the `llm_io` extension: component
name mapped to its `IoRecord`. -/
abbrev IoMap := List (String × IoRecord)

/-- The `defaultdict` access `m[nm]` followed by an in-place update `f` of the
inner dictionary: the inner record is created empty when absent. -/
def IoMap.touch (m : IoMap) (nm : String) (f : IoRecord → IoRecord) : IoMap :=
  assocSet nm (f ((assocFind nm m).getD ⟨none, none⟩)) m

/-- State of the `Doc._.llm_io` custom extension.  `set_extension` installs a
single shared default object; a document that was never assigned its own
value reads (and mutates) that shared default.  `perDoc` holds the
per-document assignments (none are ever made by this component). -/
structure ExtState where
  registered : Bool
  sharedDefault : IoMap
  perDoc : List (Nat × IoMap)
deriving DecidableEq

/-- Reading `doc._.llm_io`: the document's own value when assigned, the
shared default object otherwise. -/
def ExtState.readRecord (ext : ExtState) (d : Doc) : IoMap :=
  (assocFind d.fp ext.perDoc).getD ext.sharedDefault

/-- In-place mutation through `doc._.llm_io[nm]`: mutates the document's own
mapping when it has one, else the shared default mapping. -/
def ExtState.modifyRecord (ext : ExtState) (d : Doc) (nm : String)
    (f : IoRecord → IoRecord) : ExtState :=
  match assocFind d.fp ext.perDoc with
  | some m => { ext with perDoc := assocSet d.fp (m.touch nm f) ext.perDoc }
  | none => { ext with sharedDefault := ext.sharedDefault.touch nm f }

/-- The `if not Doc.has_extension("llm_io"): Doc.set_extension(...)` guard at
the top of `pipe`: registration happens at most once. -/
def ExtState.ensureRegistered (ext : ExtState) : ExtState :=
  if ext.registered then ext else { registered := true, sharedDefault := [], perDoc := [] }

/-- The task collaborator: prompt templating and response parsing. -/
structure LLMTask where
  generate_prompts : List Doc → Except Err (List Prompt)
  parse_responses : List Doc → List Response → Except Err (List Doc)

/-- The backend collaborator: an ordered sequence of prompts to an ordered
sequence of responses. -/
def PromptExecutor : Type := List Prompt → Except Err (List Response)

/-- The cache collaborator over an abstract cache-state type `σ`:
`contains` is the membership test (`doc in cache`, which may raise),
`get` is `cache[doc]` returning `None` on absence, `add` records a doc. -/
structure Cache (σ : Type) where
  contains : σ → Doc → Except Err Bool
  get : σ → Doc → Option Doc
  add : σ → Doc → σ

/-- Contract of the cache collaborator (spec section 4.3): the membership
test succeeds, a contained document can be fetched, additions preserve and
establish membership, and fetching a just-added fingerprint returns the
added document. -/
structure CacheLaws {σ : Type} (c : Cache σ) : Prop where
  contains_total : ∀ st d, ∃ b, c.contains st d = Except.ok b
  get_of_contains : ∀ st d, c.contains st d = Except.ok true → ∃ x, c.get st d = some x
  contains_mono : ∀ st x d, c.contains st d = Except.ok true →
    c.contains (c.add st x) d = Except.ok true
  contains_add : ∀ st x d, d.fp = x.fp → c.contains (c.add st x) d = Except.ok true
  get_add_eq : ∀ st x d, d.fp = x.fp → c.get (c.add st x) d = some x

/-- Task contract: one prompt per document, in order (only the cardinality
is needed here). -/
def promptsAligned (t : LLMTask) : Prop :=
  ∀ ds, ∃ ps, t.generate_prompts ds = Except.ok ps ∧ ps.length = ds.length

/-- Task contract: one parsed document per input document. -/
def parseAligned (t : LLMTask) : Prop :=
  ∀ ds rs, ∃ out, t.parse_responses ds rs = Except.ok out ∧ out.length = ds.length

/-- Executor contract: one response per prompt, in order. -/
def executorAligned (ex : PromptExecutor) : Prop :=
  ∀ ps, ∃ rs, ex ps = Except.ok rs ∧ rs.length = ps.length

/-- The pipeline component (`LLMWrapper.__init__` fields; `saveIoFlag` is
the `save_io` constructor argument). -/
structure LLMWrapper (σ : Type) where
  name : String
  saveIoFlag : Bool
  task : LLMTask
  backend : PromptExecutor
  cache : Cache σ

/-- Mutable state threaded through the component: the cache collaborator's
state and the `llm_io` extension state. -/
structure PipeState (σ : Type) where
  cache : σ
  ext : ExtState
deriving DecidableEq

instance {α β : Type} [DecidableEq α] [DecidableEq β] : DecidableEq (Except α β)
  | Except.error a, Except.error b =>
    if h : a = b then isTrue (by rw [h]) else isFalse (by intro hh; cases hh; exact h rfl)
  | Except.error _, Except.ok _ => isFalse (by intro hh; cases hh)
  | Except.ok _, Except.error _ => isFalse (by intro hh; cases hh)
  | Except.ok a, Except.ok b =>
    if h : a = b then isTrue (by rw [h]) else isFalse (by intro hh; cases hh; exact h rfl)

/-- Result of the single-document path. -/
structure CallResult (σ : Type) where
  result : Except Err Doc
  state : PipeState σ
  events : List Event
deriving DecidableEq

/-- Result of the body of one batch iteration of `pipe` (the `try` block). -/
structure BatchResult (σ : Type) where
  outputs : List Doc
  state : PipeState σ
  events : List Event
  err : Option Err
deriving DecidableEq

/-- Result of a whole `pipe` run.  `handled` records the error-handler
invocations `(component name, full original batch, exception)`; `aborted`
is the exception that escaped the generator, if any. -/
structure PipeResult (σ : Type) where
  outputs : List Doc
  state : PipeState σ
  events : List Event
  handled : List (String × List Doc × Err)
  aborted : Option Err
deriving DecidableEq

/-- The spaCy error handler: receives the component instance, its name, the
offending batch and the exception; returns `true` to suppress and continue,
`false` to re-raise (aborting the stream). -/
def Handler (σ : Type) : Type := LLMWrapper σ → String → List Doc → Err → Bool

/-- `LLMWrapper.__call__`: look up the doc in the cache; on a miss generate,
execute and parse the singleton batch, assert that exactly one document
comes back, and only then add it to the cache. -/
def LLMWrapper.callDoc {σ : Type} (w : LLMWrapper σ) (d : Doc) (st : PipeState σ) :
    CallResult σ :=
  match w.cache.get st.cache d with
  | some cached => ⟨Except.ok cached, st, []⟩
  | none =>
    match w.task.generate_prompts [d] with
    | Except.error e => ⟨Except.error e, st, [Event.genPrompts [d]]⟩
    | Except.ok prompts =>
      match w.backend prompts with
      | Except.error e => ⟨Except.error e, st, [Event.genPrompts [d], Event.execute prompts]⟩
      | Except.ok responses =>
        match w.task.parse_responses [d] responses with
        | Except.error e =>
          ⟨Except.error e, st,
            [Event.genPrompts [d], Event.execute prompts, Event.parseResponses [d] responses]⟩
        | Except.ok parsed =>
          match parsed with
          | [d1] =>
            ⟨Except.ok d1, ⟨w.cache.add st.cache d1, st.ext⟩,
              [Event.genPrompts [d], Event.execute prompts, Event.parseResponses [d] responses]⟩
          | _ =>
            ⟨Except.error Err.assertionError, st,
              [Event.genPrompts [d], Event.execute prompts, Event.parseResponses [d] responses]⟩

/-- The list comprehension `[doc in self._cache for doc in doc_batch]`,
which runs before the `try` block: the first raising membership test
aborts the whole comprehension. -/
def partitionFlags {σ : Type} (c : Cache σ) (cst : σ) : List Doc → Except Err (List (Doc × Bool))
  | [] => Except.ok []
  | d :: rest =>
    match c.contains cst d with
    | Except.error e => Except.error e
    | Except.ok b =>
      match partitionFlags c cst rest with
      | Except.error e => Except.error e
      | Except.ok flags => Except.ok ((d, b) :: flags)

/-- Number of cache-miss positions in a flagged batch. -/
def missCount (flags : List (Doc × Bool)) : Nat :=
  (flags.filter (fun p => ! p.2)).length

/-- The emission loop of `pipe` (`for doc, cached_doc in zip(doc_batch,
is_cached)`): on a hit re-fetch from the cache (asserting a `Doc` came
back); on a miss pull the next parsed doc, optionally record prompt and
response through the `llm_io` extension, add to the cache, yield.
`parsed`, `savedP` and `savedR` are the `modified_docs`, `saved_prompts`
and `saved_responses` iterators; an exhausted `next` raises. -/
def emitLoop {σ : Type} (w : LLMWrapper σ) :
    List (Doc × Bool) → List Doc → List Prompt → List Response → PipeState σ →
    List Doc × PipeState σ × Option Err
  | [], _, _, _, st => ([], st, none)
  | (d, cached) :: rest, parsed, savedP, savedR, st =>
    if cached then
      match w.cache.get st.cache d with
      | none => ([], st, some Err.assertionError)
      | some cd =>
        let r := emitLoop w rest parsed savedP savedR st
        (cd :: r.1, r.2.1, r.2.2)
    else
      match parsed with
      | [] => ([], st, some Err.runtimeStopIteration)
      | d1 :: parsedRest =>
        if w.saveIoFlag then
          let ext0 := st.ext.modifyRecord d1 w.name (fun q => q)
          match savedP with
          | [] => ([], { st with ext := ext0 }, some Err.runtimeStopIteration)
          | p :: savedPRest =>
            let ext1 := ext0.modifyRecord d1 w.name (fun q => q.setPrompt p)
            match savedR with
            | [] => ([], { st with ext := ext1 }, some Err.runtimeStopIteration)
            | r :: savedRRest =>
              let ext2 := ext1.modifyRecord d1 w.name (fun q => q.setResponse r)
              let st2 : PipeState σ := ⟨w.cache.add st.cache d1, ext2⟩
              let rr := emitLoop w rest parsedRest savedPRest savedRRest st2
              (d1 :: rr.1, rr.2.1, rr.2.2)
        else
          let st2 : PipeState σ := ⟨w.cache.add st.cache d1, st.ext⟩
          let rr := emitLoop w rest parsedRest savedP savedR st2
          (d1 :: rr.1, rr.2.1, rr.2.2)

/-- The `try` block of one batch iteration of `pipe`: generate prompts for
the cache-miss subsequence, execute them, parse the responses, then run the
emission loop.  With `save_io`, `tee` duplicates the prompt and response
sequences for the per-document records. -/
def processBatchBody {σ : Type} (w : LLMWrapper σ) (flags : List (Doc × Bool))
    (st : PipeState σ) : BatchResult σ :=
  let noncached := (flags.filter (fun p => ! p.2)).map Prod.fst
  match w.task.generate_prompts noncached with
  | Except.error e => ⟨[], st, [Event.genPrompts noncached], some e⟩
  | Except.ok prompts =>
    match w.backend prompts with
    | Except.error e =>
      ⟨[], st, [Event.genPrompts noncached, Event.execute prompts], some e⟩
    | Except.ok responses =>
      match w.task.parse_responses noncached responses with
      | Except.error e =>
        ⟨[], st,
          [Event.genPrompts noncached, Event.execute prompts,
            Event.parseResponses noncached responses], some e⟩
      | Except.ok parsed =>
        let r := emitLoop w flags parsed prompts responses st
        ⟨r.1, r.2.1,
          [Event.genPrompts noncached, Event.execute prompts,
            Event.parseResponses noncached responses], r.2.2⟩

/-- The batch loop of `pipe`.  The membership tests run outside the `try`
block, so a raising membership test escapes the generator without reaching
the error handler; an exception inside the `try` block is delegated to the
handler, which decides between continuing and re-raising. -/
def pipeBatches {σ : Type} (w : LLMWrapper σ) (h : Handler σ) :
    List (List Doc) → PipeState σ → PipeResult σ
  | [], st => ⟨[], st, [], [], none⟩
  | b :: bs, st =>
    match partitionFlags w.cache st.cache b with
    | Except.error e => ⟨[], st, [], [], some e⟩
    | Except.ok flags =>
      let r := processBatchBody w flags st
      match r.err with
      | none =>
        let rest := pipeBatches w h bs r.state
        ⟨r.outputs ++ rest.outputs, rest.state, r.events ++ rest.events,
          rest.handled, rest.aborted⟩
      | some e =>
        if h w w.name b e then
          let rest := pipeBatches w h bs r.state
          ⟨r.outputs ++ rest.outputs, rest.state, r.events ++ rest.events,
            (w.name, b, e) :: rest.handled, rest.aborted⟩
        else
          ⟨r.outputs, r.state, r.events, [(w.name, b, e)], some e⟩

/-- Fuel-indexed body of `spacy.util.minibatch`: chunks of `n` documents,
the last chunk possibly shorter.  The fuel (initially the stream length)
only serves termination; each step consumes at least one document. -/
def minibatchAux (n : Nat) : Nat → List Doc → List (List Doc)
  | _, [] => []
  | 0, _ :: _ => []
  | fuel + 1, d :: rest =>
    if n = 0 then []
    else (d :: rest).take n :: minibatchAux n fuel ((d :: rest).drop n)

/-- `spacy.util.minibatch(stream, batch_size)` on a finite stream. -/
def minibatch (n : Nat) (stream : List Doc) : List (List Doc) :=
  minibatchAux n stream.length stream

/-- `LLMWrapper.pipe`: register the `llm_io` extension if needed, then
process the stream in minibatches. -/
def LLMWrapper.pipe {σ : Type} (w : LLMWrapper σ) (h : Handler σ) (stream : List Doc)
    (batchSize : Nat) (st : PipeState σ) : PipeResult σ :=
  pipeBatches w h (minibatch batchSize stream) ⟨st.cache, st.ext.ensureRegistered⟩

/-- Arguments of the `generate_prompts` invocations in an event log. -/
def genPromptsArgs : List Event → List (List Doc)
  | [] => []
  | Event.genPrompts ds :: es => ds :: genPromptsArgs es
  | _ :: es => genPromptsArgs es

/-- Arguments of the executor invocations in an event log. -/
def executeArgs : List Event → List (List Prompt)
  | [] => []
  | Event.execute ps :: es => ps :: executeArgs es
  | _ :: es => executeArgs es

/-- Value of a collaborator call, with a fallback for the error case. -/
def okOr {α : Type} (x : Except Err α) (dflt : α) : α :=
  match x with
  | Except.ok v => v
  | Except.error _ => dflt

/-- Boolean membership test of the spec-side description (the spec assumes
the membership test of a contract-honouring cache always succeeds). -/
def containsBool {σ : Type} (c : Cache σ) (cst : σ) (d : Doc) : Bool :=
  okOr (c.contains cst d) false

/-- Modelled from the spec, section 4.2 step 6: re-walk the original batch
in original order; for each cache-hit document emit the result fetched
fresh from the cache; for each cache-miss document pull the next item of
the parsed-results sequence, insert it into the cache, then emit it.
The `none` arm is unreachable for a contract-honouring cache. -/
def mergeBatchSpec {σ : Type} (c : Cache σ) :
    List (Doc × Bool) → List Doc → σ → List Doc × σ
  | [], _, cst => ([], cst)
  | (d, true) :: rest, parsed, cst =>
    match c.get cst d with
    | some cd =>
      let r := mergeBatchSpec c rest parsed cst
      (cd :: r.1, r.2)
    | none => ([], cst)
  | (_, false) :: rest, parsed, cst =>
    match parsed with
    | [] => ([], cst)
    | d1 :: parsedRest =>
      let r := mergeBatchSpec c rest parsedRest (c.add cst d1)
      (d1 :: r.1, r.2)

/-- Modelled from the spec, section 4.2 steps 1 to 6: partition the batch
by a per-document membership test, invoke the task on the miss-subsequence
only, execute, parse, and merge back in original order. -/
def pipeSpecBatch {σ : Type} (c : Cache σ) (t : LLMTask) (ex : PromptExecutor)
    (batch : List Doc) (cst : σ) : List Doc × σ :=
  let flags := batch.map (fun d => (d, containsBool c cst d))
  let misses := (flags.filter (fun p => ! p.2)).map Prod.fst
  let prompts := okOr (t.generate_prompts misses) []
  let responses := okOr (ex prompts) []
  let parsed := okOr (t.parse_responses misses responses) []
  mergeBatchSpec c flags parsed cst

/-- Modelled from the spec, section 4.2 contract: one annotated document
per input document, batch after batch, in input order. -/
def pipeSpecRun {σ : Type} (c : Cache σ) (t : LLMTask) (ex : PromptExecutor) :
    List (List Doc) → σ → List Doc × σ
  | [], cst => ([], cst)
  | batch :: rest, cst =>
    let r := pipeSpecBatch c t ex batch cst
    let r' := pipeSpecRun c t ex rest r.2
    (r.1 ++ r'.1, r'.2)

/-- Configuration errors raised by the `llm` factory. -/
inductive ConfigError where
  | missingTask
  | invalidTypes (msg : String)
deriving DecidableEq

/-- The `make_llm` factory: a missing task is a fatal configuration error
raised before the wrapper is constructed; otherwise the collaborator types
are validated and the wrapper is built. -/
def make_llm {σ : Type} (name : String) (task : Option LLMTask) (saveIoFlag : Bool)
    (backend : PromptExecutor) (cache : Cache σ)
    (validate_types : LLMTask → PromptExecutor → Except String Unit) :
    Except ConfigError (LLMWrapper σ) :=
  match task with
  | none => Except.error ConfigError.missingTask
  | some t =>
    match validate_types t backend with
    | Except.error msg => Except.error (ConfigError.invalidTypes msg)
    | Except.ok _ => Except.ok ⟨name, saveIoFlag, t, backend, cache⟩

/-- Concrete association-list cache instance, honouring the cache contract. -/
def listCache : Cache (List (Nat × Doc)) where
  contains := fun st d => Except.ok (assocFind d.fp st).isSome
  get := fun st d => assocFind d.fp st
  add := fun st d => assocSet d.fp d st

/-- Concrete task stub: one prompt per document, one annotated document per
input document. -/
def toyTask : LLMTask where
  generate_prompts := fun ds => Except.ok (ds.map (fun d => String.append "P" (toString d.fp)))
  parse_responses := fun ds _ => Except.ok (ds.map (fun d => Doc.mk d.fp [d.fp + 1]))

/-- Concrete executor stub: one response per prompt. -/
def toyBackend : PromptExecutor :=
  fun ps => Except.ok (ps.map (fun p => String.append "R" p))

/-- Handler that suppresses every exception and continues. -/
def contHandler {σ : Type} : Handler σ := fun _ _ _ _ => true

/-- Buggy task stub whose `parse_responses` returns too few documents. -/
def shortParseTask : LLMTask where
  generate_prompts := toyTask.generate_prompts
  parse_responses := fun _ _ => Except.ok []

/-- Cache stub whose membership test raises on fingerprint 99. -/
def badCache : Cache (List (Nat × Doc)) where
  contains := fun st d =>
    if d.fp = 99 then Except.error (Err.cacheError "boom")
    else Except.ok (assocFind d.fp st).isSome
  get := fun st d => assocFind d.fp st
  add := fun st d => assocSet d.fp d st

/-- Concrete wrapper over the stub collaborators. -/
def toyWrapper (flag : Bool) : LLMWrapper (List (Nat × Doc)) :=
  ⟨"llm", flag, toyTask, toyBackend, listCache⟩

/-- Concrete wrapper whose task violates the parse cardinality contract. -/
def shortWrapper : LLMWrapper (List (Nat × Doc)) :=
  ⟨"llm", false, shortParseTask, toyBackend, listCache⟩

/-- Concrete wrapper whose cache membership test can raise. -/
def badWrapper : LLMWrapper (List (Nat × Doc)) :=
  ⟨"llm", false, toyTask, toyBackend, badCache⟩

def docA : Doc := ⟨0, []⟩

def docB : Doc := ⟨1, []⟩

def doc99 : Doc := ⟨99, []⟩

/-- An already-annotated document sitting in the cache under `docB`'s key. -/
def cachedB : Doc := ⟨1, [7]⟩

def ext0 : ExtState := ⟨false, [], []⟩

/-- Empty initial state. -/
def st0 : PipeState (List (Nat × Doc)) := ⟨[], ext0⟩

/-- Initial state whose cache already holds an annotated result for `docB`. -/
def stB : PipeState (List (Nat × Doc)) := ⟨[(1, cachedB)], ext0⟩

/-- Initial state whose cache already holds an annotated result for `docA`. -/
def stA : PipeState (List (Nat × Doc)) := ⟨[(0, Doc.mk 0 [7])], ext0⟩

theorem assocFind_set_self {κ β : Type} [DecidableEq κ] (k : κ) (v : β) (l : List (κ × β)) :
    assocFind k (assocSet k v l) = some v := by
  induction l with
  | nil => simp [assocFind, assocSet]
  | cons hd tl ih =>
    obtain ⟨k', v'⟩ := hd
    by_cases h : k = k'
    · subst h; simp [assocFind, assocSet]
    · simp [assocFind, assocSet, h, ih]

theorem assocFind_set_ne {κ β : Type} [DecidableEq κ] (k k' : κ) (v : β) (l : List (κ × β))
    (h : k ≠ k') : assocFind k (assocSet k' v l) = assocFind k l := by
  induction l with
  | nil => simp [assocFind, assocSet, h]
  | cons hd tl ih =>
    obtain ⟨k'', v''⟩ := hd
    by_cases h2 : k' = k''
    · subst h2; simp [assocFind, assocSet, h]
    · by_cases h3 : k = k''
      · subst h3; simp [assocFind, assocSet, h2]
      · simp [assocFind, assocSet, h2, h3, ih]

theorem listCache_laws : CacheLaws listCache := by
  constructor
  · intro st d; exact ⟨_, rfl⟩
  · intro st d h
    simp only [listCache, Except.ok.injEq] at h
    simpa [listCache] using Option.isSome_iff_exists.mp h
  · intro st x d h
    simp only [listCache, Except.ok.injEq] at h ⊢
    by_cases hk : d.fp = x.fp
    · rw [hk, assocFind_set_self]; rfl
    · rw [assocFind_set_ne _ _ _ _ hk]; exact h
  · intro st x d h
    simp only [listCache, Except.ok.injEq]
    rw [h, assocFind_set_self]; rfl
  · intro st x d h
    simp only [listCache]
    rw [h, assocFind_set_self]

theorem toyTask_prompts : promptsAligned toyTask := by
  intro ds; exact ⟨_, rfl, by simp [toyTask]⟩

theorem toyTask_parse : parseAligned toyTask := by
  intro ds rs; exact ⟨_, rfl, by simp [toyTask]⟩

theorem toyBackend_aligned : executorAligned toyBackend := by
  intro ps; exact ⟨_, rfl, by simp [toyBackend]⟩

theorem minibatchAux_flatten (n : Nat) (hn : 0 < n) :
    ∀ (fuel : Nat) (xs : List Doc), xs.length ≤ fuel →
      (minibatchAux n fuel xs).flatten = xs := by
  intro fuel
  induction fuel with
  | zero =>
    intro xs hxs
    cases xs with
    | nil => simp [minibatchAux]
    | cons d rest => simp at hxs
  | succ fuel ih =>
    intro xs hxs
    cases xs with
    | nil => simp [minibatchAux]
    | cons d rest =>
      have hn' : n ≠ 0 := Nat.pos_iff_ne_zero.mp hn
      simp only [minibatchAux, hn', if_false]
      rw [List.flatten_cons, ih ((d :: rest).drop n) ?_, List.take_append_drop]
      rw [List.length_drop]
      simp only [List.length_cons] at hxs ⊢
      omega

theorem minibatch_flatten (n : Nat) (stream : List Doc) (hn : 0 < n) :
    (minibatch n stream).flatten = stream :=
  minibatchAux_flatten n hn stream.length stream le_rfl

theorem genPromptsArgs_append (a b : List Event) :
    genPromptsArgs (a ++ b) = genPromptsArgs a ++ genPromptsArgs b := by
  induction a with
  | nil => rfl
  | cons e rest ih => cases e <;> simp [genPromptsArgs, ih]

theorem executeArgs_append (a b : List Event) :
    executeArgs (a ++ b) = executeArgs a ++ executeArgs b := by
  induction a with
  | nil => rfl
  | cons e rest ih => cases e <;> simp [executeArgs, ih]

theorem partitionFlags_total {σ : Type} (c : Cache σ) (cst : σ)
    (htot : ∀ d, ∃ bb, c.contains cst d = Except.ok bb) :
    ∀ b : List Doc, ∃ flags, partitionFlags c cst b = Except.ok flags := by
  intro b
  induction b with
  | nil => exact ⟨[], rfl⟩
  | cons x rest ih =>
    obtain ⟨bx, hbx⟩ := htot x
    obtain ⟨fl, hfl⟩ := ih
    exact ⟨(x, bx) :: fl, by simp [partitionFlags, hbx, hfl]⟩

theorem partitionFlags_ok_eq {σ : Type} (c : Cache σ) (cst : σ) :
    ∀ (b : List Doc) (flags : List (Doc × Bool)),
      partitionFlags c cst b = Except.ok flags →
      flags = b.map (fun d => (d, containsBool c cst d)) := by
  intro b
  induction b with
  | nil => intro flags h; simp only [partitionFlags, Except.ok.injEq] at h; simp [h.symm]
  | cons x rest ih =>
    intro flags h
    simp only [partitionFlags] at h
    cases hcx : c.contains cst x with
    | error e => rw [hcx] at h; cases h
    | ok bx =>
      rw [hcx] at h
      cases hrest : partitionFlags c cst rest with
      | error e => rw [hrest] at h; cases h
      | ok fl =>
        rw [hrest] at h
        simp only [Except.ok.injEq] at h
        rw [← h, List.map_cons, ← ih fl hrest]
        simp [containsBool, okOr, hcx]

theorem partitionFlags_mem {σ : Type} (c : Cache σ) (cst : σ) :
    ∀ (b : List Doc) (flags : List (Doc × Bool)) (d : Doc) (bb : Bool),
      partitionFlags c cst b = Except.ok flags → (d, bb) ∈ flags →
      c.contains cst d = Except.ok bb := by
  intro b
  induction b with
  | nil =>
    intro flags d bb h hm
    simp only [partitionFlags, Except.ok.injEq] at h
    rw [← h] at hm
    cases hm
  | cons x rest ih =>
    intro flags d bb h hm
    simp only [partitionFlags] at h
    cases hcx : c.contains cst x with
    | error e => rw [hcx] at h; cases h
    | ok bx =>
      rw [hcx] at h
      cases hrest : partitionFlags c cst rest with
      | error e => rw [hrest] at h; cases h
      | ok fl =>
        rw [hrest] at h
        simp only [Except.ok.injEq] at h
        rw [← h] at hm
        cases hm with
        | head => exact hcx
        | tail _ htl => exact ih fl d bb hrest htl

theorem missCount_cons_hit (d : Doc) (rest : List (Doc × Bool)) :
    missCount ((d, true) :: rest) = missCount rest := by
  simp [missCount, List.filter]

theorem missCount_cons_miss (d : Doc) (rest : List (Doc × Bool)) :
    missCount ((d, false) :: rest) = missCount rest + 1 := by
  simp [missCount, List.filter]

theorem emitLoop_spec {σ : Type} (w : LLMWrapper σ) (hlaw : CacheLaws w.cache) :
    ∀ (flags : List (Doc × Bool)) (parsed : List Doc) (ps : List Prompt)
      (rs : List Response) (st : PipeState σ),
      (∀ d b, (d, b) ∈ flags → b = true → w.cache.contains st.cache d = Except.ok true) →
      parsed.length = missCount flags →
      missCount flags ≤ ps.length →
      missCount flags ≤ rs.length →
      (emitLoop w flags parsed ps rs st).1 = (mergeBatchSpec w.cache flags parsed st.cache).1 ∧
      (emitLoop w flags parsed ps rs st).2.1.cache =
        (mergeBatchSpec w.cache flags parsed st.cache).2 ∧
      (emitLoop w flags parsed ps rs st).2.2 = none ∧
      (emitLoop w flags parsed ps rs st).1.length = flags.length := by
  intro flags
  induction flags with
  | nil =>
    intro parsed ps rs st hval hlen hps hrs
    simp [emitLoop, mergeBatchSpec]
  | cons pr rest ih =>
    intro parsed ps rs st hval hlen hps hrs
    obtain ⟨d, b⟩ := pr
    cases b with
    | true =>
      have hcont : w.cache.contains st.cache d = Except.ok true :=
        hval d true (List.mem_cons_self _ _) rfl
      obtain ⟨cd, hcd⟩ := hlaw.get_of_contains st.cache d hcont
      rw [missCount_cons_hit] at hlen hps hrs
      have ihr := ih parsed ps rs st
        (fun d' b' hm hb => hval d' b' (List.mem_cons_of_mem _ hm) hb) hlen hps hrs
      simp only [emitLoop, mergeBatchSpec, hcd, if_true]
      refine ⟨?_, ?_, ?_, ?_⟩
      · simp [ihr.1]
      · simp [ihr.2.1]
      · simp [ihr.2.2.1]
      · simp [ihr.2.2.2]
    | false =>
      rw [missCount_cons_miss] at hlen hps hrs
      cases parsed with
      | nil => simp at hlen
      | cons d1 parsedRest =>
        have hlen' : parsedRest.length = missCount rest := by
          simpa using hlen
        cases ps with
        | nil => simp at hps
        | cons p psRest =>
          cases rs with
          | nil => simp at hrs
          | cons r rsRest =>
            have hps' : missCount rest ≤ psRest.length := by
              simpa using hps
            have hrs' : missCount rest ≤ rsRest.length := by
              simpa using hrs
            have hval' : ∀ d' b', (d', b') ∈ rest → b' = true →
                w.cache.contains (w.cache.add st.cache d1) d' = Except.ok true :=
              fun d' b' hm hb =>
                hlaw.contains_mono st.cache d1 d'
                  (hval d' b' (List.mem_cons_of_mem _ hm) hb)
            cases hsv : w.saveIoFlag with
            | true =>
              have ihr := ih parsedRest psRest rsRest
                ⟨w.cache.add st.cache d1,
                  ((st.ext.modifyRecord d1 w.name (fun q => q)).modifyRecord d1 w.name
                    (fun q => q.setPrompt p)).modifyRecord d1 w.name
                    (fun q => q.setResponse r)⟩
                hval' hlen' hps' hrs'
              simp only [emitLoop, mergeBatchSpec, hsv, if_false, Bool.false_eq_true]
              refine ⟨?_, ?_, ?_, ?_⟩
              · simp [ihr.1]
              · simp [ihr.2.1]
              · simp [ihr.2.2.1]
              · simp [ihr.2.2.2]
            | false =>
              have ihr := ih parsedRest (p :: psRest) (r :: rsRest)
                ⟨w.cache.add st.cache d1, st.ext⟩
                hval' hlen' (le_trans hps' (by simp)) (le_trans hrs' (by simp))
              simp only [emitLoop, mergeBatchSpec, hsv, if_false, Bool.false_eq_true]
              refine ⟨?_, ?_, ?_, ?_⟩
              · simp [ihr.1]
              · simp [ihr.2.1]
              · simp [ihr.2.2.1]
              · simp [ihr.2.2.2]

theorem okOr_ok {α : Type} (v : α) (dflt : α) : okOr (Except.ok v) dflt = v := rfl

theorem missesLength (flags : List (Doc × Bool)) :
    ((flags.filter (fun p => ! p.2)).map Prod.fst).length = missCount flags := by
  simp [missCount]

theorem processBatchBody_spec {σ : Type} (w : LLMWrapper σ) (hlaw : CacheLaws w.cache)
    (hgen : promptsAligned w.task) (hexec : executorAligned w.backend)
    (hpar : parseAligned w.task) (flags : List (Doc × Bool)) (st : PipeState σ)
    (hval : ∀ d b, (d, b) ∈ flags → b = true →
      w.cache.contains st.cache d = Except.ok true) :
    (processBatchBody w flags st).outputs =
      (mergeBatchSpec w.cache flags
        (okOr (w.task.parse_responses ((flags.filter (fun p => ! p.2)).map Prod.fst)
          (okOr (w.backend (okOr (w.task.generate_prompts
            ((flags.filter (fun p => ! p.2)).map Prod.fst)) [])) [])) [])
        st.cache).1 ∧
    (processBatchBody w flags st).state.cache =
      (mergeBatchSpec w.cache flags
        (okOr (w.task.parse_responses ((flags.filter (fun p => ! p.2)).map Prod.fst)
          (okOr (w.backend (okOr (w.task.generate_prompts
            ((flags.filter (fun p => ! p.2)).map Prod.fst)) [])) [])) [])
        st.cache).2 ∧
    (processBatchBody w flags st).err = none ∧
    (processBatchBody w flags st).outputs.length = flags.length := by
  obtain ⟨ps, hps, hpsl⟩ := hgen ((flags.filter (fun p => ! p.2)).map Prod.fst)
  obtain ⟨rs, hrs, hrsl⟩ := hexec ps
  obtain ⟨parsed, hpar2, hparl⟩ :=
    hpar ((flags.filter (fun p => ! p.2)).map Prod.fst) rs
  have hel := emitLoop_spec w hlaw flags parsed ps rs st hval
    (by rw [hparl, missesLength])
    (by rw [← missesLength flags, hpsl])
    (by rw [← missesLength flags, hrsl, hpsl])
  simp only [processBatchBody, hps, hrs, hpar2, okOr_ok]
  exact ⟨hel.1, hel.2.1, hel.2.2.1, hel.2.2.2⟩

theorem pipeBatches_spec {σ : Type} (w : LLMWrapper σ) (h : Handler σ)
    (hlaw : CacheLaws w.cache) (hgen : promptsAligned w.task)
    (hexec : executorAligned w.backend) (hpar : parseAligned w.task) :
    ∀ (batches : List (List Doc)) (st : PipeState σ),
      (pipeBatches w h batches st).outputs =
        (pipeSpecRun w.cache w.task w.backend batches st.cache).1 ∧
      (pipeBatches w h batches st).state.cache =
        (pipeSpecRun w.cache w.task w.backend batches st.cache).2 ∧
      (pipeBatches w h batches st).aborted = none ∧
      (pipeBatches w h batches st).outputs.length = batches.flatten.length := by
  intro batches
  induction batches with
  | nil => intro st; simp [pipeBatches, pipeSpecRun]
  | cons b bs ih =>
    intro st
    obtain ⟨flags, hflags⟩ := partitionFlags_total w.cache st.cache
      (fun d => hlaw.contains_total st.cache d) b
    have hval : ∀ d bb, (d, bb) ∈ flags → bb = true →
        w.cache.contains st.cache d = Except.ok true := by
      intro d bb hm hb
      subst hb
      exact partitionFlags_mem w.cache st.cache b flags d true hflags hm
    have hspec := processBatchBody_spec w hlaw hgen hexec hpar flags st hval
    have hfe : flags = b.map (fun d => (d, containsBool w.cache st.cache d)) :=
      partitionFlags_ok_eq w.cache st.cache b flags hflags
    have hbatch : pipeSpecBatch w.cache w.task w.backend b st.cache =
        mergeBatchSpec w.cache flags
          (okOr (w.task.parse_responses ((flags.filter (fun p => ! p.2)).map Prod.fst)
            (okOr (w.backend (okOr (w.task.generate_prompts
              ((flags.filter (fun p => ! p.2)).map Prod.fst)) [])) [])) [])
          st.cache := by
      simp only [pipeSpecBatch]
      rw [← hfe]
    have ihr := ih (processBatchBody w flags st).state
    have herr := hspec.2.2.1
    have hflen : flags.length = b.length := by rw [hfe]; simp
    simp only [pipeBatches, hflags, herr]
    refine ⟨?_, ?_, ?_, ?_⟩
    · simp only [pipeSpecRun, hbatch]
      rw [hspec.1, ihr.1, hspec.2.1]
    · simp only [pipeSpecRun, hbatch]
      rw [ihr.2.1, hspec.2.1]
    · exact ihr.2.2.1
    · rw [List.length_append, hspec.2.2.2, ihr.2.2.2, List.flatten_cons,
        List.length_append, hflen]

/-- Claim C1: with contract-honouring collaborators and a positive batch
size, the streaming path emits exactly one annotated document per input
document, in input order: the run aborts with no error, the output length
equals the input length, and the output sequence coincides with the
spec-side description (hits re-fetched from the cache at emission time,
misses taken in order from the parsed-results sequence). -/
theorem C1_stream_one_to_one_in_order {σ : Type} (w : LLMWrapper σ) (h : Handler σ)
    (stream : List Doc) (bs : Nat) (st : PipeState σ) (hbs : 0 < bs)
    (hlaw : CacheLaws w.cache) (hgen : promptsAligned w.task)
    (hexec : executorAligned w.backend) (hpar : parseAligned w.task) :
    (w.pipe h stream bs st).aborted = none ∧
    (w.pipe h stream bs st).outputs.length = stream.length ∧
    (w.pipe h stream bs st).outputs =
      (pipeSpecRun w.cache w.task w.backend (minibatch bs stream) st.cache).1 := by
  have hp := pipeBatches_spec w h hlaw hgen hexec hpar (minibatch bs stream)
    ⟨st.cache, st.ext.ensureRegistered⟩
  refine ⟨?_, ?_, ?_⟩
  · simpa only [LLMWrapper.pipe] using hp.2.2.1
  · have hl := hp.2.2.2
    rw [minibatch_flatten bs stream hbs] at hl
    simpa only [LLMWrapper.pipe] using hl
  · simpa only [LLMWrapper.pipe] using hp.1

/-- Witness for C1 at a concrete three-document stream with a pre-cached
middle document and batch size two. -/
theorem C1_witness :
    ((toyWrapper false).pipe contHandler [docA, docB, Doc.mk 2 []] 2 stB).aborted = none ∧
    ((toyWrapper false).pipe contHandler [docA, docB, Doc.mk 2 []] 2 stB).outputs.length = 3 := by
  have hc := C1_stream_one_to_one_in_order (toyWrapper false) contHandler
    [docA, docB, Doc.mk 2 []] 2 stB (by decide) listCache_laws toyTask_prompts
    toyBackend_aligned toyTask_parse
  exact ⟨hc.1, by simpa using hc.2.1⟩

theorem processBatchBody_genArgs {σ : Type} (w : LLMWrapper σ)
    (flags : List (Doc × Bool)) (st : PipeState σ) :
    genPromptsArgs (processBatchBody w flags st).events =
      [(flags.filter (fun p => ! p.2)).map Prod.fst] := by
  simp only [processBatchBody]
  cases hg : w.task.generate_prompts ((flags.filter (fun p => ! p.2)).map Prod.fst) with
  | error e => simp [genPromptsArgs]
  | ok ps =>
    cases hb : w.backend ps with
    | error e => simp [genPromptsArgs, hb]
    | ok rs =>
      cases hp : w.task.parse_responses ((flags.filter (fun p => ! p.2)).map Prod.fst) rs with
      | error e => simp [genPromptsArgs, hb, hp]
      | ok parsed => simp [genPromptsArgs, hb, hp]

theorem processBatchBody_execArgs {σ : Type} (w : LLMWrapper σ)
    (flags : List (Doc × Bool)) (st : PipeState σ) :
    ∀ ps, ps ∈ executeArgs (processBatchBody w flags st).events →
      w.task.generate_prompts ((flags.filter (fun p => ! p.2)).map Prod.fst) =
        Except.ok ps := by
  intro ps hm
  cases hg : w.task.generate_prompts ((flags.filter (fun p => ! p.2)).map Prod.fst) with
  | error e =>
    simp only [processBatchBody, hg] at hm
    simp [executeArgs] at hm
  | ok ps' =>
    cases hb : w.backend ps' with
    | error e =>
      simp only [processBatchBody, hg, hb] at hm
      simp [executeArgs] at hm
      rw [hm]
    | ok rs =>
      cases hp : w.task.parse_responses ((flags.filter (fun p => ! p.2)).map Prod.fst) rs with
      | error e =>
        simp only [processBatchBody, hg, hb, hp] at hm
        simp [executeArgs] at hm
        rw [hm]
      | ok parsed =>
        simp only [processBatchBody, hg, hb, hp] at hm
        simp [executeArgs] at hm
        rw [hm]

theorem pipeBatches_partition_error {σ : Type} (w : LLMWrapper σ) (h : Handler σ)
    (b : List Doc) (bs : List (List Doc)) (st : PipeState σ) (e : Err)
    (hpf : partitionFlags w.cache st.cache b = Except.error e) :
    pipeBatches w h (b :: bs) st = ⟨[], st, [], [], some e⟩ := by
  simp only [pipeBatches, hpf]

theorem pipeBatches_cons_ok_none {σ : Type} (w : LLMWrapper σ) (h : Handler σ)
    (b : List Doc) (bs : List (List Doc)) (st : PipeState σ) (flags : List (Doc × Bool))
    (hpf : partitionFlags w.cache st.cache b = Except.ok flags)
    (herr : (processBatchBody w flags st).err = none) :
    pipeBatches w h (b :: bs) st =
      ⟨(processBatchBody w flags st).outputs ++
        (pipeBatches w h bs (processBatchBody w flags st).state).outputs,
       (pipeBatches w h bs (processBatchBody w flags st).state).state,
       (processBatchBody w flags st).events ++
        (pipeBatches w h bs (processBatchBody w flags st).state).events,
       (pipeBatches w h bs (processBatchBody w flags st).state).handled,
       (pipeBatches w h bs (processBatchBody w flags st).state).aborted⟩ := by
  simp only [pipeBatches, hpf, herr]

theorem pipeBatches_cons_ok_some_cont {σ : Type} (w : LLMWrapper σ) (h : Handler σ)
    (b : List Doc) (bs : List (List Doc)) (st : PipeState σ) (flags : List (Doc × Bool))
    (e : Err) (hpf : partitionFlags w.cache st.cache b = Except.ok flags)
    (herr : (processBatchBody w flags st).err = some e)
    (hh : h w w.name b e = true) :
    pipeBatches w h (b :: bs) st =
      ⟨(processBatchBody w flags st).outputs ++
        (pipeBatches w h bs (processBatchBody w flags st).state).outputs,
       (pipeBatches w h bs (processBatchBody w flags st).state).state,
       (processBatchBody w flags st).events ++
        (pipeBatches w h bs (processBatchBody w flags st).state).events,
       (w.name, b, e) :: (pipeBatches w h bs (processBatchBody w flags st).state).handled,
       (pipeBatches w h bs (processBatchBody w flags st).state).aborted⟩ := by
  simp only [pipeBatches, hpf, herr, hh, if_true]

theorem pipeBatches_cons_ok_some_raise {σ : Type} (w : LLMWrapper σ) (h : Handler σ)
    (b : List Doc) (bs : List (List Doc)) (st : PipeState σ) (flags : List (Doc × Bool))
    (e : Err) (hpf : partitionFlags w.cache st.cache b = Except.ok flags)
    (herr : (processBatchBody w flags st).err = some e)
    (hh : h w w.name b e = false) :
    pipeBatches w h (b :: bs) st =
      ⟨(processBatchBody w flags st).outputs, (processBatchBody w flags st).state,
       (processBatchBody w flags st).events, [(w.name, b, e)], some e⟩ := by
  simp only [pipeBatches, hpf, herr, hh, Bool.false_eq_true, if_false]

theorem pipeBatches_genArgs {σ : Type} (w : LLMWrapper σ) (h : Handler σ) :
    ∀ (batches : List (List Doc)) (st : PipeState σ) (ds : List Doc),
      ds ∈ genPromptsArgs (pipeBatches w h batches st).events →
      ∃ (b : List Doc) (flags : List (Doc × Bool)) (cst : σ),
        b ∈ batches ∧ partitionFlags w.cache cst b = Except.ok flags ∧
        ds = (flags.filter (fun p => ! p.2)).map Prod.fst := by
  intro batches
  induction batches with
  | nil => intro st ds hm; simp [pipeBatches, genPromptsArgs] at hm
  | cons b bs ih =>
    intro st ds hm
    cases hpf : partitionFlags w.cache st.cache b with
    | error e =>
      rw [pipeBatches_partition_error w h b bs st e hpf] at hm
      simp [genPromptsArgs] at hm
    | ok flags =>
      have hhead : ds ∈ genPromptsArgs (processBatchBody w flags st).events →
          ∃ (b' : List Doc) (flags' : List (Doc × Bool)) (cst : σ),
            b' ∈ b :: bs ∧ partitionFlags w.cache cst b' = Except.ok flags' ∧
            ds = (flags'.filter (fun p => ! p.2)).map Prod.fst := by
        intro hmem
        rw [processBatchBody_genArgs] at hmem
        simp at hmem
        exact ⟨b, flags, st.cache, List.mem_cons_self _ _, hpf, hmem⟩
      have htail : ds ∈ genPromptsArgs
          (pipeBatches w h bs (processBatchBody w flags st).state).events →
          ∃ (b' : List Doc) (flags' : List (Doc × Bool)) (cst : σ),
            b' ∈ b :: bs ∧ partitionFlags w.cache cst b' = Except.ok flags' ∧
            ds = (flags'.filter (fun p => ! p.2)).map Prod.fst := by
        intro hmem
        obtain ⟨b', flags', cst, hb', hpf', hds⟩ :=
          ih (processBatchBody w flags st).state ds hmem
        exact ⟨b', flags', cst, List.mem_cons_of_mem _ hb', hpf', hds⟩
      cases herr : (processBatchBody w flags st).err with
      | none =>
        rw [pipeBatches_cons_ok_none w h b bs st flags hpf herr] at hm
        simp only [genPromptsArgs_append, List.mem_append] at hm
        rcases hm with hm | hm
        · exact hhead hm
        · exact htail hm
      | some e =>
        by_cases hh : h w w.name b e = true
        · rw [pipeBatches_cons_ok_some_cont w h b bs st flags e hpf herr hh] at hm
          simp only [genPromptsArgs_append, List.mem_append] at hm
          rcases hm with hm | hm
          · exact hhead hm
          · exact htail hm
        · rw [pipeBatches_cons_ok_some_raise w h b bs st flags e hpf herr
            (Bool.not_eq_true _ ▸ hh)] at hm
          exact hhead hm

/-- Claim C2: in every batch, the task's prompt generation is invoked with
exactly the cache-miss subsequence of the batch (a sublist of the batch, in
original relative order); a document whose membership test came back true
at partition time is never part of it; and the executor only ever receives
the prompts generated from that miss-subsequence.  At the level of `pipe`,
every `generate_prompts` invocation argument is the miss-subsequence of
some processed minibatch. -/
theorem C2_only_miss_subsequence_submitted {σ : Type} (w : LLMWrapper σ) :
    (∀ (b : List Doc) (flags : List (Doc × Bool)) (st : PipeState σ),
      partitionFlags w.cache st.cache b = Except.ok flags →
      genPromptsArgs (processBatchBody w flags st).events =
        [(flags.filter (fun p => ! p.2)).map Prod.fst] ∧
      ((flags.filter (fun p => ! p.2)).map Prod.fst).Sublist b ∧
      (∀ d, w.cache.contains st.cache d = Except.ok true →
        d ∉ (flags.filter (fun p => ! p.2)).map Prod.fst) ∧
      (∀ ps, ps ∈ executeArgs (processBatchBody w flags st).events →
        w.task.generate_prompts ((flags.filter (fun p => ! p.2)).map Prod.fst) =
          Except.ok ps)) ∧
    (∀ (h : Handler σ) (stream : List Doc) (bs : Nat) (st : PipeState σ) (ds : List Doc),
      ds ∈ genPromptsArgs ((w.pipe h stream bs st)).events →
      ∃ (b : List Doc) (flags : List (Doc × Bool)) (cst : σ),
        b ∈ minibatch bs stream ∧ partitionFlags w.cache cst b = Except.ok flags ∧
        ds = (flags.filter (fun p => ! p.2)).map Prod.fst) := by
  constructor
  · intro b flags st hflags
    refine ⟨processBatchBody_genArgs w flags st, ?_, ?_, processBatchBody_execArgs w flags st⟩
    · have hfst : flags.map Prod.fst = b := by
        rw [partitionFlags_ok_eq w.cache st.cache b flags hflags, List.map_map]
        simp [Function.comp_def]
      rw [← hfst]
      exact (List.filter_sublist flags).map Prod.fst
    · intro d hd hmem
      obtain ⟨⟨d', bb⟩, hpair, hfsteq⟩ := List.mem_map.mp hmem
      have hbb : bb = false := by
        have := (List.mem_filter.mp hpair).2
        simpa using this
      have hpair' : (d', bb) ∈ flags := (List.mem_filter.mp hpair).1
      subst hbb
      have hcd' := partitionFlags_mem w.cache st.cache b flags d' false hflags hpair'
      simp only at hfsteq
      rw [hfsteq] at hcd'
      rw [hd] at hcd'
      simp at hcd'
  · intro h stream bs st ds hm
    exact pipeBatches_genArgs w h (minibatch bs stream)
      ⟨st.cache, st.ext.ensureRegistered⟩ ds (by simpa only [LLMWrapper.pipe] using hm)

/-- Witness for C2 at a concrete mixed batch: only the cache-miss document
is submitted to the task. -/
theorem C2_witness :
    partitionFlags (toyWrapper false).cache stB.cache [docA, docB] =
      Except.ok [(docA, false), (docB, true)] ∧
    genPromptsArgs (processBatchBody (toyWrapper false)
      [(docA, false), (docB, true)] stB).events = [[docA]] := by
  refine ⟨by decide, ?_⟩
  have hc := (C2_only_miss_subsequence_submitted (toyWrapper false)).1
    [docA, docB] [(docA, false), (docB, true)] stB (by decide)
  exact hc.1.trans (by decide)

/-- Claim C3: the single-document path.  On a cache hit the cached result
is returned with no collaborator invocation and no state change.  On a miss
the task and executor are invoked on the singleton batch; if parsing yields
exactly one document it is added to the cache and returned; if it yields
any other number of documents the assertion fires and the cache is not
mutated. -/
theorem C3_call_single_document {σ : Type} (w : LLMWrapper σ) (d : Doc) (st : PipeState σ) :
    (∀ cd, w.cache.get st.cache d = some cd →
      w.callDoc d st = ⟨Except.ok cd, st, []⟩) ∧
    (w.cache.get st.cache d = none →
      ∀ ps rs parsed,
        w.task.generate_prompts [d] = Except.ok ps →
        w.backend ps = Except.ok rs →
        w.task.parse_responses [d] rs = Except.ok parsed →
        (w.callDoc d st).events =
          [Event.genPrompts [d], Event.execute ps, Event.parseResponses [d] rs] ∧
        (∀ d1, parsed = [d1] →
          w.callDoc d st = ⟨Except.ok d1, ⟨w.cache.add st.cache d1, st.ext⟩,
            [Event.genPrompts [d], Event.execute ps, Event.parseResponses [d] rs]⟩) ∧
        (parsed.length ≠ 1 →
          (w.callDoc d st).result = Except.error Err.assertionError ∧
          (w.callDoc d st).state = st)) := by
  constructor
  · intro cd hcd
    simp [LLMWrapper.callDoc, hcd]
  · intro hnone ps rs parsed hg hb hp
    refine ⟨?_, ?_, ?_⟩
    · simp only [LLMWrapper.callDoc, hnone, hg, hb, hp]
      cases parsed with
      | nil => rfl
      | cons d1 rest =>
        cases rest with
        | nil => rfl
        | cons d2 r2 => rfl
    · intro d1 h1
      subst h1
      simp [LLMWrapper.callDoc, hnone, hg, hb, hp]
    · intro hlen
      cases parsed with
      | nil => exact ⟨by simp [LLMWrapper.callDoc, hnone, hg, hb, hp],
          by simp [LLMWrapper.callDoc, hnone, hg, hb, hp]⟩
      | cons d1 rest =>
        cases rest with
        | nil => simp at hlen
        | cons d2 r2 => exact ⟨by simp [LLMWrapper.callDoc, hnone, hg, hb, hp],
            by simp [LLMWrapper.callDoc, hnone, hg, hb, hp]⟩

/-- Witness for C3 on a concrete cache miss: one prompt, one response, one
parsed document, which is cached and returned. -/
theorem C3_witness :
    (toyWrapper false).callDoc docA st0 =
      ⟨Except.ok (Doc.mk 0 [1]), ⟨[(0, Doc.mk 0 [1])], ext0⟩,
        [Event.genPrompts [docA], Event.execute ["P0"],
          Event.parseResponses [docA] ["RP0"]]⟩ := by
  have hc := (C3_call_single_document (toyWrapper false) docA st0).2 (by decide)
    ["P0"] ["RP0"] [Doc.mk 0 [1]] (by decide) (by decide) (by decide)
  have h2 := hc.2.1 (Doc.mk 0 [1]) rfl
  exact h2.trans (by decide)

/-- Counterexample for C4: an exception raised while partitioning the batch
(the membership tests run before the `try` block) escapes `pipe` without
ever reaching the error handler, contradicting the claim that exceptions
raised during partitioning are caught and delegated. -/
theorem C4_counterexample :
    (badWrapper.pipe contHandler [doc99] 4 st0).handled = [] ∧
    (badWrapper.pipe contHandler [doc99] 4 st0).aborted =
      some (Err.cacheError "boom") := by
  decide

/-- Amended C4: an exception raised during prompt generation, execution,
parsing or emission of a batch is caught at batch granularity and passed to
the error handler with the component name, the full original batch and the
exception; when the handler does not re-raise, the stream continues exactly
as the processing of the remaining batches from the post-batch state.  An
exception raised during partitioning, however, escapes the stream without
invoking the handler. -/
theorem C4_batch_error_delegation {σ : Type} (w : LLMWrapper σ) (h : Handler σ)
    (b : List Doc) (bs : List (List Doc)) (st : PipeState σ) :
    (∀ flags e, partitionFlags w.cache st.cache b = Except.ok flags →
      (processBatchBody w flags st).err = some e →
      ((w.name, b, e) ∈ (pipeBatches w h (b :: bs) st).handled ∧
       (h w w.name b e = true →
         (pipeBatches w h (b :: bs) st).outputs =
           (processBatchBody w flags st).outputs ++
             (pipeBatches w h bs (processBatchBody w flags st).state).outputs ∧
         (pipeBatches w h (b :: bs) st).handled =
           (w.name, b, e) ::
             (pipeBatches w h bs (processBatchBody w flags st).state).handled ∧
         (pipeBatches w h (b :: bs) st).aborted =
           (pipeBatches w h bs (processBatchBody w flags st).state).aborted))) ∧
    (∀ e, partitionFlags w.cache st.cache b = Except.error e →
      pipeBatches w h (b :: bs) st = ⟨[], st, [], [], some e⟩) := by
  constructor
  · intro flags e hpf herr
    by_cases hh : h w w.name b e = true
    · rw [pipeBatches_cons_ok_some_cont w h b bs st flags e hpf herr hh]
      exact ⟨List.mem_cons_self _ _, fun _ => ⟨rfl, rfl, rfl⟩⟩
    · rw [pipeBatches_cons_ok_some_raise w h b bs st flags e hpf herr
        (Bool.not_eq_true _ ▸ hh)]
      exact ⟨List.mem_singleton.mpr rfl, fun hcon => absurd hcon hh⟩
  · intro e hpf
    exact pipeBatches_partition_error w h b bs st e hpf

/-- Witness for the amended C4: a concrete batch whose task returns too few
parsed documents fails with an exception that reaches the handler together
with the full batch. -/
theorem C4_witness :
    partitionFlags shortWrapper.cache stB.cache [docA, docB] =
      Except.ok [(docA, false), (docB, true)] ∧
    ("llm", [docA, docB], Err.runtimeStopIteration) ∈
      (pipeBatches shortWrapper contHandler [[docA, docB]] stB).handled := by
  refine ⟨by decide, ?_⟩
  exact ((C4_batch_error_delegation shortWrapper contHandler [docA, docB] [] stB).1
    [(docA, false), (docB, true)] Err.runtimeStopIteration (by decide) (by decide)).1

theorem emitLoop_err_lt {σ : Type} (w : LLMWrapper σ) :
    ∀ (flags : List (Doc × Bool)) (parsed : List Doc) (ps : List Prompt)
      (rs : List Response) (st : PipeState σ) (e : Err),
      (emitLoop w flags parsed ps rs st).2.2 = some e →
      (emitLoop w flags parsed ps rs st).1.length < flags.length := by
  intro flags
  induction flags with
  | nil => intro parsed ps rs st e he; simp [emitLoop] at he
  | cons pr rest ih =>
    intro parsed ps rs st e he
    obtain ⟨d, bflag⟩ := pr
    cases bflag with
    | true =>
      cases hg : w.cache.get st.cache d with
      | none => simp [emitLoop, hg]
      | some cd =>
        simp only [emitLoop, hg, if_true] at he ⊢
        have := ih parsed ps rs st e he
        simpa using Nat.succ_lt_succ this
    | false =>
      cases parsed with
      | nil => simp [emitLoop]
      | cons d1 parsedRest =>
        cases hsv : w.saveIoFlag with
        | true =>
          cases ps with
          | nil => simp [emitLoop, hsv]
          | cons p psRest =>
            cases rs with
            | nil => simp [emitLoop, hsv]
            | cons r rsRest =>
              simp only [emitLoop, hsv, Bool.false_eq_true, if_false, if_true] at he ⊢
              have := ih parsedRest psRest rsRest
                ⟨w.cache.add st.cache d1,
                  ((st.ext.modifyRecord d1 w.name (fun q => q)).modifyRecord d1 w.name
                    (fun q => q.setPrompt p)).modifyRecord d1 w.name
                    (fun q => q.setResponse r)⟩ e he
              simpa using Nat.succ_lt_succ this
        | false =>
          simp only [emitLoop, hsv, Bool.false_eq_true, if_false] at he ⊢
          have := ih parsedRest ps rs ⟨w.cache.add st.cache d1, st.ext⟩ e he
          simpa using Nat.succ_lt_succ this

/-- Counterexample for C5: a two-document batch (first a cache hit, then a
miss) whose task returns too few parsed documents fails mid-emission: the
batch reaches the error handler, yet the cache-hit document was already
emitted, so the failed batch did contribute output items of its own. -/
theorem C5_counterexample :
    (shortWrapper.pipe contHandler [docB, docA] 2 stB).handled =
      [("llm", [docB, docA], Err.runtimeStopIteration)] ∧
    (shortWrapper.pipe contHandler [docB, docA] 2 stB).outputs = [cachedB] := by
  decide

/-- Amended C5: a batch that fails during prompt generation, execution or
parsing contributes no output items; a batch that fails during emission
contributes exactly the documents already emitted before the exception —
in particular strictly fewer than the whole batch. -/
theorem C5_failed_batch_partial_emission {σ : Type} (w : LLMWrapper σ)
    (flags : List (Doc × Bool)) (st : PipeState σ) :
    (∀ e, w.task.generate_prompts ((flags.filter (fun p => ! p.2)).map Prod.fst) =
        Except.error e → (processBatchBody w flags st).outputs = []) ∧
    (∀ ps e, w.task.generate_prompts ((flags.filter (fun p => ! p.2)).map Prod.fst) =
        Except.ok ps → w.backend ps = Except.error e →
      (processBatchBody w flags st).outputs = []) ∧
    (∀ ps rs e, w.task.generate_prompts ((flags.filter (fun p => ! p.2)).map Prod.fst) =
        Except.ok ps → w.backend ps = Except.ok rs →
      w.task.parse_responses ((flags.filter (fun p => ! p.2)).map Prod.fst) rs =
        Except.error e →
      (processBatchBody w flags st).outputs = []) ∧
    (flags ≠ [] → ∀ e, (processBatchBody w flags st).err = some e →
      (processBatchBody w flags st).outputs.length < flags.length) := by
  refine ⟨?_, ?_, ?_, ?_⟩
  · intro e hg
    simp [processBatchBody, hg]
  · intro ps e hg hb
    simp [processBatchBody, hg, hb]
  · intro ps rs e hg hb hp
    simp [processBatchBody, hg, hb, hp]
  · intro hne e herr
    cases hg : w.task.generate_prompts ((flags.filter (fun p => ! p.2)).map Prod.fst) with
    | error e2 =>
      simp only [processBatchBody, hg]
      simpa using List.length_pos.mpr hne
    | ok ps =>
      cases hb : w.backend ps with
      | error e2 =>
        simp only [processBatchBody, hg, hb]
        simpa using List.length_pos.mpr hne
      | ok rs =>
        cases hp : w.task.parse_responses
            ((flags.filter (fun p => ! p.2)).map Prod.fst) rs with
        | error e2 =>
          simp only [processBatchBody, hg, hb, hp]
          simpa using List.length_pos.mpr hne
        | ok parsed =>
          simp only [processBatchBody, hg, hb, hp] at herr ⊢
          exact emitLoop_err_lt w flags parsed ps rs st e herr

/-- Witness for the amended C5: in the concrete failed batch of the
counterexample, the emitted output is strictly shorter than the batch. -/
theorem C5_witness :
    (processBatchBody shortWrapper [(docB, true), (docA, false)] stB).outputs.length <
      2 := by
  have hc := (C5_failed_batch_partial_emission shortWrapper
    [(docB, true), (docA, false)] stB).2.2.2 (by decide)
    Err.runtimeStopIteration (by decide)
  simpa using hc

theorem emitLoop_ext_no_save {σ : Type} (w : LLMWrapper σ) (hsv : w.saveIoFlag = false) :
    ∀ (flags : List (Doc × Bool)) (parsed : List Doc) (ps : List Prompt)
      (rs : List Response) (st : PipeState σ),
      (emitLoop w flags parsed ps rs st).2.1.ext = st.ext := by
  intro flags
  induction flags with
  | nil => intro parsed ps rs st; simp [emitLoop]
  | cons pr rest ih =>
    intro parsed ps rs st
    obtain ⟨d, bflag⟩ := pr
    cases bflag with
    | true =>
      cases hg : w.cache.get st.cache d with
      | none => simp [emitLoop, hg]
      | some cd => simp [emitLoop, hg, ih]
    | false =>
      cases parsed with
      | nil => simp [emitLoop]
      | cons d1 parsedRest =>
        simp only [emitLoop, hsv, Bool.false_eq_true, if_false]
        exact ih parsedRest ps rs ⟨w.cache.add st.cache d1, st.ext⟩

theorem touch_find_self (m : IoMap) (nm p r : String) :
    assocFind nm (((m.touch nm (fun q => q)).touch nm
        (fun q => q.setPrompt p)).touch nm (fun q => q.setResponse r)) =
      some ⟨some p, some r⟩ := by
  simp [IoMap.touch, assocFind_set_self, IoRecord.setPrompt, IoRecord.setResponse]

theorem touch_perDoc_nil (ext : ExtState) (d : Doc) (nm : String)
    (f : IoRecord → IoRecord) (hpd : ext.perDoc = []) :
    (ext.modifyRecord d nm f).perDoc = [] ∧
    (ext.modifyRecord d nm f).sharedDefault = ext.sharedDefault.touch nm f := by
  simp [ExtState.modifyRecord, hpd, assocFind]

theorem emitLoop_lastWrite {σ : Type} (w : LLMWrapper σ) (hlaw : CacheLaws w.cache)
    (hsave : w.saveIoFlag = true) :
    ∀ (flags : List (Doc × Bool)) (parsed : List Doc) (ps : List Prompt)
      (rs : List Response) (st : PipeState σ),
      (∀ d b, (d, b) ∈ flags → b = true → w.cache.contains st.cache d = Except.ok true) →
      parsed.length = missCount flags →
      ps.length = missCount flags →
      rs.length = missCount flags →
      st.ext.perDoc = [] →
      (emitLoop w flags parsed ps rs st).2.1.ext.perDoc = [] ∧
      (missCount flags = 0 → (emitLoop w flags parsed ps rs st).2.1.ext = st.ext) ∧
      (∀ p r, ps.getLast? = some p → rs.getLast? = some r →
        assocFind w.name (emitLoop w flags parsed ps rs st).2.1.ext.sharedDefault =
          some ⟨some p, some r⟩) := by
  intro flags
  induction flags with
  | nil =>
    intro parsed ps rs st hval hlen hps hrs hpd
    refine ⟨by simpa [emitLoop] using hpd, fun _ => by simp [emitLoop], ?_⟩
    intro p r hp hr
    have hpn : ps = [] := List.length_eq_zero.mp (by simpa [missCount] using hps)
    rw [hpn] at hp
    cases hp
  | cons pr rest ih =>
    intro parsed ps rs st hval hlen hps hrs hpd
    obtain ⟨d, bflag⟩ := pr
    cases bflag with
    | true =>
      have hcont : w.cache.contains st.cache d = Except.ok true :=
        hval d true (List.mem_cons_self _ _) rfl
      obtain ⟨cd, hcd⟩ := hlaw.get_of_contains st.cache d hcont
      rw [missCount_cons_hit] at hlen hps hrs
      have ihr := ih parsed ps rs st
        (fun d' b' hm hb => hval d' b' (List.mem_cons_of_mem _ hm) hb) hlen hps hrs hpd
      simp only [emitLoop, hcd, if_true, missCount_cons_hit]
      exact ⟨ihr.1, ihr.2.1, ihr.2.2⟩
    | false =>
      rw [missCount_cons_miss] at hlen hps hrs
      cases parsed with
      | nil => simp at hlen
      | cons d1 parsedRest =>
        cases ps with
        | nil => simp at hps
        | cons p psRest =>
          cases rs with
          | nil => simp at hrs
          | cons r rsRest =>
            have hlen' : parsedRest.length = missCount rest := by simpa using hlen
            have hps' : psRest.length = missCount rest := by simpa using hps
            have hrs' : rsRest.length = missCount rest := by simpa using hrs
            have hval' : ∀ d' b', (d', b') ∈ rest → b' = true →
                w.cache.contains (w.cache.add st.cache d1) d' = Except.ok true :=
              fun d' b' hm hb =>
                hlaw.contains_mono st.cache d1 d'
                  (hval d' b' (List.mem_cons_of_mem _ hm) hb)
            have ht0 := touch_perDoc_nil st.ext d1 w.name (fun q => q) hpd
            have ht1 := touch_perDoc_nil (st.ext.modifyRecord d1 w.name (fun q => q))
              d1 w.name (fun q => q.setPrompt p) ht0.1
            have ht2 := touch_perDoc_nil
              ((st.ext.modifyRecord d1 w.name (fun q => q)).modifyRecord d1 w.name
                (fun q => q.setPrompt p)) d1 w.name (fun q => q.setResponse r) ht1.1
            have ihr := ih parsedRest psRest rsRest
              ⟨w.cache.add st.cache d1,
                ((st.ext.modifyRecord d1 w.name (fun q => q)).modifyRecord d1 w.name
                  (fun q => q.setPrompt p)).modifyRecord d1 w.name
                  (fun q => q.setResponse r)⟩
              hval' hlen' hps' hrs' ht2.1
            have hshared :
                (((st.ext.modifyRecord d1 w.name (fun q => q)).modifyRecord d1 w.name
                  (fun q => q.setPrompt p)).modifyRecord d1 w.name
                  (fun q => q.setResponse r)).sharedDefault =
                ((st.ext.sharedDefault.touch w.name (fun q => q)).touch w.name
                  (fun q => q.setPrompt p)).touch w.name (fun q => q.setResponse r) := by
              rw [ht2.2, ht1.2, ht0.2]
            simp only [emitLoop, hsave, if_true, missCount_cons_miss,
              Bool.false_eq_true, if_false]
            refine ⟨ihr.1, fun h0 => absurd h0 (Nat.succ_ne_zero _), ?_⟩
            intro p' r' hp' hr'
            cases psRest with
            | nil =>
              have hmc0 : missCount rest = 0 := by simpa using hps'.symm
              have hrs0 : rsRest = [] := List.length_eq_zero.mp (by rw [hrs', hmc0])
              subst hrs0
              have hp2 : p = p' := by simpa using hp'
              have hr2 : r = r' := by simpa using hr'
              rw [ihr.2.1 hmc0, hshared, touch_find_self, hp2, hr2]
            | cons q qs =>
              cases rsRest with
              | nil => rw [← hps'] at hrs'; simp at hrs'
              | cons r2 rs2 =>
                rw [List.getLast?_cons_cons] at hp' hr'
                exact ihr.2.2 p' r' hp' hr'

/-- Counterexample for C6: with `save_io` enabled and a batch of two cache
misses, the prompts executed were `["P0", "P1"]` (so the first fresh
document's own prompt was `"P0"`), yet after the run the record the first
emitted document carries under the component name holds `"P1"`/`"RP1"` —
the most recent write to the shared default record, not that document's own
prompt and response. -/
theorem C6_counterexample :
    (let r := (toyWrapper true).pipe contHandler [docA, docB] 2 st0
     r.outputs = [Doc.mk 0 [1], Doc.mk 1 [2]] ∧
     executeArgs r.events = [["P0", "P1"]] ∧
     assocFind "llm" (r.state.ext.readRecord (Doc.mk 0 [1])) =
       some ⟨some "P1", some "RP1"⟩ ∧
     assocFind "llm" (r.state.ext.readRecord (Doc.mk 0 [1])) ≠
       some ⟨some "P0", some "RP0"⟩) := by
  decide

/-- Amended C6: with the flag disabled the extension state is untouched (no
prompt/response record is attached); enabling the flag changes neither the
emitted documents, nor the cache, nor success; the writes go to the shared
default record of the `llm_io` extension, so after the batch the record
under the component name holds the exact prompt and response of the MOST
RECENTLY processed cache-miss document (each fresh document's own pair is
present only at the moment it is emitted), and no per-document record is
ever created. -/
theorem C6_save_io_record_semantics {σ : Type} (w : LLMWrapper σ)
    (flags : List (Doc × Bool)) (st : PipeState σ) (hlaw : CacheLaws w.cache)
    (hgen : promptsAligned w.task) (hexec : executorAligned w.backend)
    (hpar : parseAligned w.task)
    (hval : ∀ d b, (d, b) ∈ flags → b = true →
      w.cache.contains st.cache d = Except.ok true)
    (hpd : st.ext.perDoc = []) :
    (processBatchBody { w with saveIoFlag := false } flags st).state.ext = st.ext ∧
    (processBatchBody { w with saveIoFlag := true } flags st).outputs =
      (processBatchBody { w with saveIoFlag := false } flags st).outputs ∧
    (processBatchBody { w with saveIoFlag := true } flags st).state.cache =
      (processBatchBody { w with saveIoFlag := false } flags st).state.cache ∧
    (processBatchBody { w with saveIoFlag := true } flags st).err = none ∧
    (processBatchBody { w with saveIoFlag := true } flags st).state.ext.perDoc = [] ∧
    (∀ ps rs p r,
      w.task.generate_prompts ((flags.filter (fun pr => ! pr.2)).map Prod.fst) =
        Except.ok ps →
      w.backend ps = Except.ok rs →
      ps.getLast? = some p → rs.getLast? = some r →
      assocFind w.name
        (processBatchBody { w with saveIoFlag := true } flags st).state.ext.sharedDefault =
        some ⟨some p, some r⟩) := by
  have hsT := processBatchBody_spec { w with saveIoFlag := true } hlaw hgen hexec hpar
    flags st hval
  have hsF := processBatchBody_spec { w with saveIoFlag := false } hlaw hgen hexec hpar
    flags st hval
  obtain ⟨ps0, hg0, hl0⟩ := hgen ((flags.filter (fun pr => ! pr.2)).map Prod.fst)
  obtain ⟨rs0, hb0, hbl⟩ := hexec ps0
  obtain ⟨parsed0, hp0, hpl⟩ := hpar ((flags.filter (fun pr => ! pr.2)).map Prod.fst) rs0
  have hlw := emitLoop_lastWrite { w with saveIoFlag := true } hlaw rfl flags parsed0
    ps0 rs0 st hval (by rw [hpl, missesLength]) (by rw [hl0, missesLength])
    (by rw [hbl, hl0, missesLength]) hpd
  refine ⟨?_, ?_, ?_, hsT.2.2.1, ?_, ?_⟩
  · cases hg : w.task.generate_prompts ((flags.filter (fun pr => ! pr.2)).map Prod.fst) with
    | error e => simp [processBatchBody, hg]
    | ok ps =>
      cases hb : w.backend ps with
      | error e => simp [processBatchBody, hg, hb]
      | ok rs =>
        cases hp : w.task.parse_responses
            ((flags.filter (fun pr => ! pr.2)).map Prod.fst) rs with
        | error e => simp [processBatchBody, hg, hb, hp]
        | ok parsed =>
          simp only [processBatchBody, hg, hb, hp]
          exact emitLoop_ext_no_save { w with saveIoFlag := false } rfl flags parsed ps rs st
  · rw [hsT.1, hsF.1]
  · rw [hsT.2.1, hsF.2.1]
  · simp only [processBatchBody, hg0, hb0, hp0]
    exact hlw.1
  · intro ps rs p r hg hb hpl2 hrl2
    rw [hg] at hg0
    have hps_eq : ps = ps0 := (Except.ok.injEq _ _).mp hg0
    subst hps_eq
    rw [hb] at hb0
    have hrs_eq : rs = rs0 := (Except.ok.injEq _ _).mp hb0
    subst hrs_eq
    simp only [processBatchBody, hg, hb, hp0]
    exact hlw.2.2 p r hpl2 hrl2

/-- Witness for the amended C6: after a batch with two fresh documents, the
shared record holds exactly the second (most recent) prompt/response pair. -/
theorem C6_witness :
    assocFind "llm" ((processBatchBody { toyWrapper false with saveIoFlag := true }
      [(docA, false), (docB, false)] st0).state.ext.sharedDefault) =
      some ⟨some "P1", some "RP1"⟩ := by
  have hc := C6_save_io_record_semantics (toyWrapper false) [(docA, false), (docB, false)]
    st0 listCache_laws toyTask_prompts toyBackend_aligned toyTask_parse
    (by intro d b hm hb; subst hb; simp [docA, docB] at hm) rfl
  exact hc.2.2.2.2.2 ["P0", "P1"] ["RP0", "RP1"] "P1" "RP1" (by decide) (by decide) rfl rfl

theorem minibatch_singleton (n : Nat) (hn : 0 < n) (d : Doc) :
    minibatch n [d] = [[d]] := by
  obtain ⟨m, rfl⟩ : ∃ m, n = m + 1 := ⟨n - 1, by omega⟩
  simp [minibatch, minibatchAux]

/-- Counterexample for C7: after a first pass cached the document, a second
pass through the streaming path returns the cached result, yet the task and
the executor are still invoked (with empty sequences): the event log of the
second pass is not empty, refuting the claim of zero task or executor
invocations on the streaming path. -/
theorem C7_counterexample :
    (let st1 := ((toyWrapper false).callDoc (Doc.mk 5 []) st0).state
     let r2 := (toyWrapper false).pipe contHandler [Doc.mk 5 []] 4 st1
     ((toyWrapper false).callDoc (Doc.mk 5 []) st0).result = Except.ok (Doc.mk 5 [6]) ∧
     r2.outputs = [Doc.mk 5 [6]] ∧
     r2.events = [Event.genPrompts [], Event.execute [], Event.parseResponses [] []] ∧
     r2.events ≠ []) := by
  decide

/-- Amended C7: processing the same document a second time returns the
identical annotated output, obtained purely from the cache, on both paths.
On the single-document path the second pass performs zero task or executor
invocations and leaves the state unchanged.  On the streaming path the
second pass emits the cached result without mutating the cache, but the
task and the executor are still invoked once per batch — with the empty
miss-subsequence, so no document is ever submitted to them. -/
theorem C7_second_pass_from_cache {σ : Type} (w : LLMWrapper σ) (h : Handler σ)
    (d d1 : Doc) (st : PipeState σ) (ps : List Prompt) (rs : List Response) (n : Nat)
    (hlaw : CacheLaws w.cache) (hn : 0 < n)
    (hmiss : w.cache.get st.cache d = none)
    (hg : w.task.generate_prompts [d] = Except.ok ps)
    (hb : w.backend ps = Except.ok rs)
    (hp : w.task.parse_responses [d] rs = Except.ok [d1])
    (hfp : d.fp = d1.fp)
    (hg0 : w.task.generate_prompts [] = Except.ok [])
    (hb0 : w.backend [] = Except.ok [])
    (hp0 : w.task.parse_responses [] [] = Except.ok []) :
    (w.callDoc d st).result = Except.ok d1 ∧
    w.callDoc d (w.callDoc d st).state = ⟨Except.ok d1, (w.callDoc d st).state, []⟩ ∧
    (w.pipe h [d] n (w.callDoc d st).state).outputs = [d1] ∧
    (w.pipe h [d] n (w.callDoc d st).state).state.cache =
      (w.callDoc d st).state.cache ∧
    genPromptsArgs (w.pipe h [d] n (w.callDoc d st).state).events = [[]] ∧
    executeArgs (w.pipe h [d] n (w.callDoc d st).state).events = [[]] := by
  have hcall : w.callDoc d st =
      ⟨Except.ok d1, ⟨w.cache.add st.cache d1, st.ext⟩,
        [Event.genPrompts [d], Event.execute ps, Event.parseResponses [d] rs]⟩ := by
    simp [LLMWrapper.callDoc, hmiss, hg, hb, hp]
  have hget1 : w.cache.get (w.cache.add st.cache d1) d = some d1 :=
    hlaw.get_add_eq st.cache d1 d hfp
  have hcont1 : w.cache.contains (w.cache.add st.cache d1) d = Except.ok true :=
    hlaw.contains_add st.cache d1 d hfp
  have hpf : partitionFlags w.cache (w.cache.add st.cache d1) [d] =
      Except.ok [(d, true)] := by
    simp [partitionFlags, hcont1]
  have hbatch : processBatchBody w [(d, true)]
      ⟨w.cache.add st.cache d1, st.ext.ensureRegistered⟩ =
      ⟨[d1], ⟨w.cache.add st.cache d1, st.ext.ensureRegistered⟩,
        [Event.genPrompts [], Event.execute [], Event.parseResponses [] []], none⟩ := by
    simp only [processBatchBody]
    simp [List.filter, hg0, hb0, hp0, emitLoop, hget1]
  have herr : (processBatchBody w [(d, true)]
      ⟨w.cache.add st.cache d1, st.ext.ensureRegistered⟩).err = none := by
    rw [hbatch]
  have heq := pipeBatches_cons_ok_none w h [d] []
    ⟨w.cache.add st.cache d1, st.ext.ensureRegistered⟩ [(d, true)] hpf herr
  rw [hcall]
  refine ⟨rfl, ?_, ?_, ?_, ?_, ?_⟩
  · simp [LLMWrapper.callDoc, hget1]
  · simp only [LLMWrapper.pipe, minibatch_singleton n hn d]
    rw [heq, hbatch]
    simp [pipeBatches]
  · simp only [LLMWrapper.pipe, minibatch_singleton n hn d]
    rw [heq, hbatch]
    simp [pipeBatches]
  · simp only [LLMWrapper.pipe, minibatch_singleton n hn d]
    rw [heq, hbatch]
    simp [pipeBatches, genPromptsArgs]
  · simp only [LLMWrapper.pipe, minibatch_singleton n hn d]
    rw [heq, hbatch]
    simp [pipeBatches, executeArgs, genPromptsArgs]

/-- Witness for the amended C7 on a concrete document: the second streaming
pass returns the cached annotated document. -/
theorem C7_witness :
    ((toyWrapper false).callDoc (Doc.mk 5 []) st0).result = Except.ok (Doc.mk 5 [6]) ∧
    ((toyWrapper false).pipe contHandler [Doc.mk 5 []] 4
      ((toyWrapper false).callDoc (Doc.mk 5 []) st0).state).outputs = [Doc.mk 5 [6]] := by
  have hc := C7_second_pass_from_cache (toyWrapper false) contHandler (Doc.mk 5 [])
    (Doc.mk 5 [6]) st0 ["P5"] ["RP5"] 4 listCache_laws (by decide) (by decide)
    (by decide) (by decide) (by decide) rfl (by decide) (by decide) (by decide)
  exact ⟨hc.1, hc.2.2.1⟩

/-- Claim C8: constructing the component without a task is a fatal
configuration error reported before the wrapper is created; with a task
present this error is never raised. -/
theorem C8_missing_task_fatal {σ : Type} (name : String) (saveIoFlag : Bool)
    (backend : PromptExecutor) (cache : Cache σ)
    (validate_types : LLMTask → PromptExecutor → Except String Unit) :
    make_llm name none saveIoFlag backend cache validate_types =
      Except.error ConfigError.missingTask ∧
    (∀ t : LLMTask, make_llm name (some t) saveIoFlag backend cache validate_types ≠
      Except.error ConfigError.missingTask) := by
  refine ⟨rfl, ?_⟩
  intro t hcon
  simp only [make_llm] at hcon
  cases hv : validate_types t backend with
  | error msg => rw [hv] at hcon; simp at hcon
  | ok u => rw [hv] at hcon; simp at hcon

/-- Witness for C8 with concrete collaborators. -/
theorem C8_witness :
    make_llm "llm" (none : Option LLMTask) false toyBackend listCache
      (fun _ _ => Except.ok ()) = Except.error ConfigError.missingTask ∧
    make_llm "llm" (some toyTask) false toyBackend listCache
      (fun _ _ => Except.ok ()) ≠ Except.error ConfigError.missingTask := by
  have hc := C8_missing_task_fatal "llm" false toyBackend listCache
    (fun _ _ => Except.ok ())
  exact ⟨hc.1, hc.2 toyTask⟩

theorem emitLoop_perDoc_nil {σ : Type} (w : LLMWrapper σ) :
    ∀ (flags : List (Doc × Bool)) (parsed : List Doc) (ps : List Prompt)
      (rs : List Response) (st : PipeState σ),
      st.ext.perDoc = [] → (emitLoop w flags parsed ps rs st).2.1.ext.perDoc = [] := by
  intro flags
  induction flags with
  | nil => intro parsed ps rs st hpd; simpa [emitLoop] using hpd
  | cons pr rest ih =>
    intro parsed ps rs st hpd
    obtain ⟨d, bflag⟩ := pr
    cases bflag with
    | true =>
      cases hget : w.cache.get st.cache d with
      | none => simpa [emitLoop, hget] using hpd
      | some cd =>
        simp only [emitLoop, hget, if_true]
        exact ih parsed ps rs st hpd
    | false =>
      cases parsed with
      | nil => simpa [emitLoop] using hpd
      | cons d1 parsedRest =>
        cases hsv : w.saveIoFlag with
        | true =>
          have ht0 := touch_perDoc_nil st.ext d1 w.name (fun q => q) hpd
          cases ps with
          | nil =>
            simp only [emitLoop, hsv, if_true, Bool.false_eq_true, if_false]
            exact ht0.1
          | cons p psRest =>
            have ht1' := touch_perDoc_nil (st.ext.modifyRecord d1 w.name (fun q => q))
              d1 w.name (fun q => q.setPrompt p) ht0.1
            cases rs with
            | nil =>
              simp only [emitLoop, hsv, if_true, Bool.false_eq_true, if_false]
              exact ht1'.1
            | cons r rsRest =>
              have ht2 := touch_perDoc_nil
                ((st.ext.modifyRecord d1 w.name (fun q => q)).modifyRecord d1 w.name
                  (fun q => q.setPrompt p)) d1 w.name (fun q => q.setResponse r) ht1'.1
              simp only [emitLoop, hsv, if_true, Bool.false_eq_true, if_false]
              exact ih parsedRest psRest rsRest _ ht2.1
        | false =>
          simp only [emitLoop, hsv, Bool.false_eq_true, if_false]
          exact ih parsedRest ps rs ⟨w.cache.add st.cache d1, st.ext⟩ hpd

/-- Claim C9: the `llm_io` extension is registered once with a single
shared default mapping.  Two documents without a per-document assignment
observe the very same record, a prompt/response write performed through one
of them is observable through the other, and the streaming path never
creates per-document records (all its writes mutate the shared default). -/
theorem C9_shared_default_record (ext : ExtState) (d1 d2 : Doc) (nm p r : String)
    (h1 : assocFind d1.fp ext.perDoc = none) (h2 : assocFind d2.fp ext.perDoc = none) :
    ext.readRecord d1 = ext.readRecord d2 ∧
    ((ext.modifyRecord d1 nm (fun q => q.setPrompt p)).modifyRecord d1 nm
        (fun q => q.setResponse r)).readRecord d2 =
      ((ext.readRecord d2).touch nm (fun q => q.setPrompt p)).touch nm
        (fun q => q.setResponse r) ∧
    (ext.registered = true → ext.ensureRegistered = ext) ∧
    (∀ (σ : Type) (w : LLMWrapper σ) (flags : List (Doc × Bool)) (st : PipeState σ),
      st.ext.perDoc = [] → (processBatchBody w flags st).state.ext.perDoc = []) := by
  refine ⟨?_, ?_, ?_, ?_⟩
  · simp [ExtState.readRecord, h1, h2]
  · simp [ExtState.modifyRecord, ExtState.readRecord, h1, h2]
  · intro hreg; simp [ExtState.ensureRegistered, hreg]
  · intro σ w flags st hpd
    cases hg : w.task.generate_prompts ((flags.filter (fun pr => ! pr.2)).map Prod.fst) with
    | error e => simpa [processBatchBody, hg] using hpd
    | ok ps =>
      cases hb : w.backend ps with
      | error e => simpa [processBatchBody, hg, hb] using hpd
      | ok rs =>
        cases hp : w.task.parse_responses
            ((flags.filter (fun pr => ! pr.2)).map Prod.fst) rs with
        | error e => simpa [processBatchBody, hg, hb, hp] using hpd
        | ok parsed =>
          simp only [processBatchBody, hg, hb, hp]
          exact emitLoop_perDoc_nil w flags parsed ps rs st hpd

/-- Witness for C9 at a concrete extension state with no per-document
assignments: both documents observe the same shared record, and a write
through one is visible through the other. -/
theorem C9_witness :
    (⟨true, [("llm", IoRecord.mk (some "x") none)], []⟩ : ExtState).readRecord docA =
      (⟨true, [("llm", IoRecord.mk (some "x") none)], []⟩ : ExtState).readRecord docB ∧
    (((⟨true, [], []⟩ : ExtState).modifyRecord docA "llm"
        (fun q => q.setPrompt "p")).modifyRecord docA "llm"
        (fun q => q.setResponse "r")).readRecord docB =
      [("llm", IoRecord.mk (some "p") (some "r"))] := by
  constructor
  · exact (C9_shared_default_record ⟨true, [("llm", IoRecord.mk (some "x") none)], []⟩
      docA docB "llm" "p" "r" rfl rfl).1
  · have hc := (C9_shared_default_record ⟨true, [], []⟩ docA docB "llm" "p" "r" rfl rfl).2.1
    exact hc.trans (by decide)

/-- Claim C10: the single-document path never touches the llm_io extension
state, even when the save_io flag is enabled: a fresh run of `__call__`
leaves the instrumentation state exactly as it was. -/
theorem C10_call_never_writes_records {σ : Type} (w : LLMWrapper σ) (d : Doc)
    (st : PipeState σ) :
    ((w.callDoc d st).state).ext = st.ext ∧
    (({ w with saveIoFlag := true }).callDoc d st).state.ext = st.ext := by
  have key : ∀ w' : LLMWrapper σ, ((w'.callDoc d st).state).ext = st.ext := by
    intro w'
    simp only [LLMWrapper.callDoc]
    cases hget : w'.cache.get st.cache d with
    | some cd => simp
    | none =>
      cases hg : w'.task.generate_prompts [d] with
      | error e => simp
      | ok ps =>
        cases hb : w'.backend ps with
        | error e => simp [hb]
        | ok rs =>
          cases hp : w'.task.parse_responses [d] rs with
          | error e => simp [hb, hp]
          | ok parsed =>
            cases parsed with
            | nil => simp [hb, hp]
            | cons x xs =>
              cases xs with
              | nil => simp [hb, hp]
              | cons y ys => simp [hb, hp]
  exact ⟨key w, key _⟩

end SpacyLLM
